import Mathlib

/-!
# Verification of the LongGuide guideline-synthesis core

Shallow embedding of the LongGuide repository's core components and proofs of
the spec's testable properties about them:

* `longguide/llm_client.py` — the model-call gateway (`LLMClient`): provider
  detection, one-time fallback at construction, and the retry/backoff loop of
  `LLMClient.generate`.
* `longguide/guidelines.py` — metric discovery (`MetricsGuidelines.generate_metrics`),
  judge-score aggregation (`MetricsGuidelines.generate_llmjudge_scores`), and
  constraint statistics (`OutputConstraintsGuidelines.generate_output_constraints`
  with `format_ocg_constraints`).

External effects (network calls, `random.sample`, `random.shuffle`, nltk
tokenizers, JSON extraction from raw model text) are abstracted as explicit
parameters: a provider call is a function `Nat → Option String` (the result of
attempt number `a`, `none` when that attempt raises), a parsed judge response is
an `Option` association list (`none` when the fenced JSON payload was absent or
undecodable), and sampling/shuffling outcomes are passed in with hypotheses
stating exactly what Python's `random` guarantees.  Python list mutation is made
explicit: an operation that can mutate its list argument returns the post-state
of that argument alongside its result.
-/

namespace LongGuide

/-! ## Model Call Gateway (`longguide/llm_client.py`) -/

/-- The two provider backends of `LLMClient` (`"openai"` / `"claude"` strings in
the source). -/
inductive Provider where
  | openai : Provider
  | claude : Provider
deriving DecidableEq, Repr

/-- Python's substring test `needle in hay`. -/
def containsSub (needle hay : String) : Bool :=
  hay.toList.tails.any (fun t => needle.toList.isPrefixOf t)

/-- Python's `str.lower()`: character-wise lowercasing (ASCII suffices for the
model names concerned). -/
def strLower (s : String) : String :=
  String.mk (s.toList.map Char.toLower)

/-- Embeds `LLMClient._detect_provider`: `"gpt" in model_name.lower()` selects OpenAI,
else `"claude" in model_name.lower()` selects Claude, else the OpenAI default. -/
def detect_provider (model_name : String) : Provider :=
  if containsSub "gpt" (strLower model_name) then Provider.openai
  else if containsSub "claude" (strLower model_name) then Provider.claude
  else Provider.openai

/-- Embeds `LLMClient._setup_client`: for the Claude provider, client construction may
throw (`boto3` session / bedrock client); on failure the provider is demoted to
OpenAI.  `claudeInitOk` is true when the `try` block succeeds. -/
def setup_provider (detected : Provider) (claudeInitOk : Bool) : Provider :=
  match detected with
  | Provider.openai => Provider.openai
  | Provider.claude => if claudeInitOk then Provider.claude else Provider.openai

/-- The state of an `LLMClient` instance after `__init__`: the model name and
the provider latched at construction. -/
structure LLMClient where
  model_name : String
  provider : Provider
deriving DecidableEq, Repr

/-- Embeds `LLMClient.__init__`: detect the provider from the model name, then run
`_setup_client` (whose Claude branch may fail, demoting to OpenAI). -/
def mkLLMClient (model_name : String) (claudeInitOk : Bool) : LLMClient :=
  { model_name := model_name
    provider := setup_provider (detect_provider model_name) claudeInitOk }

/-- Observable outcome of one `LLMClient.generate` call: the returned string,
the number of provider attempts made, and the list of back-off sleep durations
actually performed, in order. -/
structure GenOutcome where
  output : String
  attempts : Nat
  sleeps : List Nat
deriving DecidableEq, Repr

/-- The body of `LLMClient.generate`'s `for attempt in range(max_retries + 1)`
loop, processing the remaining attempt numbers.  `call a = some s` means the
provider call of attempt `a` returned `s`; `none` means it raised.  On success
the function returns immediately; on failure it sleeps `2 ^ attempt` when
`attempt < max_retries`, and on the final attempt returns `""`.  The `[]` case
models falling off the loop end (line 76, `return ""`), unreachable when
started from the full range. -/
def generateGo (call : Nat → Option String) (max_retries : Nat) :
    List Nat → GenOutcome
  | [] => ⟨"", 0, []⟩
  | a :: rest =>
    match call a with
    | some s => ⟨s, 1, []⟩
    | none =>
      if a < max_retries then
        let r := generateGo call max_retries rest
        ⟨r.output, r.attempts + 1, 2 ^ a :: r.sleeps⟩
      else ⟨"", 1, []⟩

/-- The retry loop of `LLMClient.generate` over attempts `0 .. max_retries`.  The
return type is total (`GenOutcome`, not an exception monad): every provider
exception is caught inside the loop, mirroring that `generate` never raises
outward. -/
def generate (call : Nat → Option String) (max_retries : Nat) : GenOutcome :=
  generateGo call max_retries (List.range (max_retries + 1))

/-- Provider dispatch inside `LLMClient.generate`: the stored provider (latched
at construction and never re-detected) selects which backend is called on each
attempt. -/
def clientCall (c : LLMClient) (openaiCall claudeCall : String → Nat → Option String)
    (prompt : String) : Nat → Option String :=
  fun a =>
    match c.provider with
    | Provider.openai => openaiCall prompt a
    | Provider.claude => claudeCall prompt a

/-- A full `LLMClient.generate` call on a constructed client: retry loop plus
provider dispatch. -/
def clientGenerate (c : LLMClient) (openaiCall claudeCall : String → Nat → Option String)
    (prompt : String) (max_retries : Nat) : GenOutcome :=
  generate (clientCall c openaiCall claudeCall prompt) max_retries

/-! ## Judge Score Aggregator (`MetricsGuidelines.generate_llmjudge_scores`) -/

/-- A parsed judge response: the JSON object decoded from the fenced block,
as an association list from metric name to reported score. -/
abbrev Resp := List (String × ℚ)

/-- Value of key `m` in the running-totals dict (`mc_collected_scores[m]`),
`none` when `m` is not a key. -/
def findVal (st : Resp) (m : String) : Option ℚ :=
  (st.find? (fun p => p.1 == m)).map Prod.snd

/-- Python's `k in mc_collected_scores` dict-membership test. -/
def hasKey (st : Resp) (k : String) : Bool :=
  st.any (fun p => p.1 == k)

/-- Python `mc_collected_scores[k] += v`: add `v` to the entry with key `k`. -/
def addScore (st : Resp) (k : String) (v : ℚ) : Resp :=
  st.map (fun p => if p.1 = k then (p.1, p.2 + v) else p)

/-- The inner loop `for metric in eva_outcome: if metric in mc_collected_scores:
mc_collected_scores[metric] += eva_outcome[metric]` — one parsed response
folded into the running totals; keys not in the dict are skipped. -/
def applyResp (st : Resp) (r : Resp) : Resp :=
  r.foldl (fun acc kv => if hasKey acc kv.1 then addScore acc kv.1 kv.2 else acc) st

/-- The per-item loop of `generate_llmjudge_scores`: each item's gateway
response is either `none` (the `except: continue` path — gateway failure or no
decodable fenced JSON) or `some r`; a valid response updates the totals and
increments `valid_update_cnt`. -/
def scoresFold (init : Resp) (responses : List (Option Resp)) : Resp × Nat :=
  responses.foldl
    (fun acc ro =>
      match ro with
      | none => acc
      | some r => (applyResp acc.1 r, acc.2 + 1))
    (init, 0)

/-- Python `mc_collected_scores = {metric: 0 for metric in collected_metrics}`: one
zero-initialized entry per distinct metric, in first-occurrence order. -/
def initScores (metrics : List String) : Resp :=
  metrics.dedup.map (fun m => (m, (0 : ℚ)))

/-- Embeds `MetricsGuidelines.generate_llmjudge_scores` (guidelines.py lines
145–190), with the per-item gateway/parse outcomes passed in: initialize every
requested metric to 0, fold every valid response into the running totals, then
divide each total by `valid_update_cnt` when at least one response was valid,
and otherwise set every metric to the optimistic default 5. -/
def generate_llmjudge_scores (metrics : List String) (responses : List (Option Resp)) :
    Resp :=
  let res := scoresFold (initScores metrics) responses
  if 1 ≤ res.2 then res.1.map (fun p => (p.1, p.2 / (res.2 : ℚ)))
  else res.1.map (fun p => (p.1, (5 : ℚ)))

/-- Sum of the scores a parsed response reports under key `m` (for a JSON
object this is just the single score at `m`, or 0 when `m` is absent). -/
def sumAt (r : Resp) (m : String) : ℚ :=
  ((r.filter (fun kv => kv.1 == m)).map Prod.snd).sum

/-- Folding a whole list of valid responses into the totals. -/
def applyAll (st : Resp) (rs : List Resp) : Resp :=
  rs.foldl applyResp st

/-! ## Metric Discovery (`MetricsGuidelines.generate_metrics`) -/

/-- Line 74 of guidelines.py: `iter_valid_data = [elem for elem in
iter_valid_data if elem not in selected_valid]` — remove from the pool every
element equal *by value* to a sampled element. -/
def poolRemove {α : Type} [DecidableEq α] (pool sel : List α) : List α :=
  pool.filter (fun e => decide (e ∉ sel))

/-- The pool across the discovery rounds: `sels` lists, round by round, the
batch drawn by `random.sample`, and each round removes its batch from the
working pool (lines 72–74). -/
def discoverPool {α : Type} [DecidableEq α] : List α → List (List α) → List α
  | pool, [] => pool
  | pool, sel :: rest => discoverPool (poolRemove pool sel) rest

/-- What Python's `random.sample(pool, k)` guarantees for each round: the drawn
batch is a sub-multiset of the current pool (distinct positions, i.e. sampling
without replacement), with the pool updated by value-removal between rounds. -/
def ValidRun {α : Type} [DecidableEq α] : List α → List (List α) → Prop
  | _, [] => True
  | pool, sel :: rest => List.Subperm sel pool ∧ ValidRun (poolRemove pool sel) rest

/-- A value inside a round's decoded JSON payload.  Line 101
(`collected_metrics.update(metrics_list)`) performs no shape check on what
`json.loads` produced, so the collected set can receive non-string entries.
`str` carries an intended metric name; `num` stands for a non-string JSON
value (Python refuses to order such a value against a string: comparing them
raises `TypeError`). -/
inductive JVal where
  | str : String → JVal
  | num : Int → JVal
deriving DecidableEq, Repr

/-- True exactly on string payload entries. -/
def JVal.isStr : JVal → Bool
  | JVal.str _ => true
  | JVal.num _ => false

/-- The string carried by a string entry (junk on numeric entries; only
applied to all-string sets). -/
def JVal.getStr : JVal → String
  | JVal.str x => x
  | JVal.num _ => ""

/-- The number carried by a numeric entry (junk on string entries; only
applied to all-non-string sets). -/
def JVal.getNum : JVal → Int
  | JVal.str _ => 0
  | JVal.num n => n

/-- Lines 93–103: per round, the gateway response either yields no decodable
fenced JSON payload (`none`, the `except: continue` path) or contributes its
decoded list of values, unioned raw into the collected set
(`collected_metrics.update(metrics_list)` — no shape check). -/
def collect_metrics (resps : List (Option (List JVal))) : Finset JVal :=
  resps.foldl
    (fun acc ro =>
      match ro with
      | none => acc
      | some ms => acc ∪ ms.toFinset)
    ∅

/-- Lines 105–107: `collected_metrics = list(collected_metrics);
collected_metrics.sort()`.  The sort runs *outside* the per-round `try`: on a
set whose entries are all strings it sorts them lexicographically (Lean's
`String` order, like Python's, is lexicographic on code points); on an
all-non-string set it sorts numerically; on a set mixing the two, Python's
element comparison raises `TypeError`, which propagates out of
`generate_metrics` — modelled as `none`. -/
def generate_metrics (resps : List (Option (List JVal))) : Option (List JVal) :=
  let s := collect_metrics resps
  if ∀ v ∈ s, v.isStr = true then
    some (((s.image JVal.getStr).sort (· ≤ ·)).map JVal.str)
  else if ∀ v ∈ s, v.isStr = false then
    some (((s.image JVal.getNum).sort (· ≤ ·)).map JVal.num)
  else none

/-! ## Constraint Statistics (`OutputConstraintsGuidelines`) -/

/-- The record returned by `generate_output_constraints`: min/max/average
sentence and word (token) counts.  Averages are exact rationals — the source
keeps Python floats and truncates to `int` only inside
`format_ocg_constraints`. -/
structure OCGStats where
  s_min : Nat
  s_max : Nat
  s_avg : ℚ
  t_min : Nat
  t_max : Nat
  t_avg : ℚ
deriving DecidableEq, Repr

/-- Embeds `OutputConstraintsGuidelines.generate_output_constraints` (lines 264–290),
taking the per-item sentence counts and word counts as inputs (the counts
themselves come from the external nltk tokenizers in `count_sentences` /
`count_words`).  Python's `min`/`max`/division raise on an empty list, hence
`none` for an empty validation set. -/
def generate_output_constraints (sentence_counts token_counts : List Nat) :
    Option OCGStats :=
  match sentence_counts, token_counts with
  | s :: ss, t :: ts =>
    some
      { s_min := ss.foldl Nat.min s
        s_max := ss.foldl Nat.max s
        s_avg := (((s :: ss).map (fun n => (n : ℚ))).sum) / (((s :: ss).length : ℚ))
        t_min := ts.foldl Nat.min t
        t_max := ts.foldl Nat.max t
        t_avg := (((t :: ts).map (fun n => (n : ℚ))).sum) / (((t :: ts).length : ℚ)) }
  | _, _ => none

/-- Embeds `OutputConstraintsGuidelines.format_ocg_constraints` (lines 303–313): the
range-form constraint sentence, truncating each average to an integer
(`int(...)`; the averages of nonnegative counts are nonnegative, where
truncation and floor agree). -/
def format_ocg_constraints (c : OCGStats) : String :=
  "The summary must have from " ++ toString c.s_min ++ " to " ++
    toString c.s_max ++ " sentences and from " ++ toString c.t_min ++ " to " ++
    toString c.t_max ++ " words with an average of " ++
    toString (Rat.floor c.t_avg) ++ " words and " ++
    toString (Rat.floor c.s_avg) ++ " sentences."

/-! ## Mutation-explicit runners

Python lists are passed by reference, so an operation can mutate its caller's
list.  Each runner below returns, next to its result, the post-state of the
caller's `validation_data` argument, read off the source:
`generate_metrics` copies it (line 69: `iter_valid_data =
validation_data.copy()`) and mutates only the copy;
`generate_llmjudge_scores` shuffles it in place (line 147:
`random.shuffle(validation_data)`), leaving some permutation chosen by the
random number generator (passed in as `shuffled`);
`generate_output_constraints` only reads it. -/

/-- Runner for `MetricsGuidelines.generate_metrics` with the caller's list
post-state (unchanged even when the final sort raises, since only the line-69
copy is ever mutated). -/
def generate_metrics_run {α : Type} (validation_data : List α)
    (resps : List (Option (List JVal))) : Option (List JVal) × List α :=
  (generate_metrics resps, validation_data)

/-- Runner for `MetricsGuidelines.generate_llmjudge_scores` with the caller's list
post-state: the per-item responses `resps` are aligned with the shuffled
order. -/
def generate_llmjudge_scores_run {ι : Type} (metrics : List String)
    (validation_data shuffled : List ι) (resps : List (Option Resp)) :
    Resp × List ι :=
  (generate_llmjudge_scores metrics resps, shuffled)

/-- Runner for `OutputConstraintsGuidelines.generate_output_constraints` with the
caller's list post-state; `cs`/`cw` are the per-item sentence and word
counters. -/
def generate_output_constraints_run {ι : Type} (validation_data : List ι)
    (cs cw : ι → Nat) : Option OCGStats × List ι :=
  (generate_output_constraints (validation_data.map cs) (validation_data.map cw),
    validation_data)

end LongGuide

namespace LongGuide

/-- Claim C1 — Gateway backoff: if every provider attempt raises and
`max_retries = 3`, `generate` makes exactly 4 attempts, sleeps
`2^0, 2^1, 2^2` time units after the first three failures (total `1+2+4`, no
sleep after the final attempt), and returns the empty string; by the totality
of `generate` no exception propagates to the caller. -/
theorem generate_all_fail_backoff (call : Nat → Option String)
    (h : ∀ a, call a = none) :
    generate call 3 = ⟨"", 4, [1, 2, 4]⟩ := by
  have hr : List.range 4 = [0, 1, 2, 3] := rfl
  simp [generate, hr, generateGo, h]

/-- Witness for C1: the always-raising provider realizes the hypothesis. -/
theorem generate_all_fail_backoff_witness :
    generate (fun _ => none) 3 = ⟨"", 4, [1, 2, 4]⟩ :=
  generate_all_fail_backoff (fun _ => none) (fun _ => rfl)

/-- Claim C2 — Gateway fallback permanence: when the model name selects the
Claude provider but Claude client construction fails, the constructed client's
provider field is OpenAI, and every subsequent `generate` call on that instance
behaves exactly as on a client whose provider is OpenAI — the provider choice
is a field fixed at construction and is never re-evaluated. -/
theorem gateway_fallback_permanence (model_name : String)
    (hdet : detect_provider model_name = Provider.claude) :
    (mkLLMClient model_name false).provider = Provider.openai ∧
      ∀ openaiCall claudeCall prompt max_retries,
        clientGenerate (mkLLMClient model_name false) openaiCall claudeCall
            prompt max_retries =
          clientGenerate ⟨model_name, Provider.openai⟩ openaiCall claudeCall
            prompt max_retries := by
  have hp : (mkLLMClient model_name false).provider = Provider.openai := by
    simp [mkLLMClient, hdet, setup_provider]
  refine ⟨hp, fun oc cc prompt mr => ?_⟩
  have hc : clientCall (mkLLMClient model_name false) oc cc prompt =
      clientCall ⟨model_name, Provider.openai⟩ oc cc prompt := by
    funext a
    simp [clientCall, hp]
  simp [clientGenerate, hc]

/-- Witness for C2: a model name containing `"claude"` (and not `"gpt"`)
detects the Claude provider; with failed Claude initialization the client is
latched to OpenAI. -/
theorem gateway_fallback_permanence_witness :
    (mkLLMClient "claude-v2" false).provider = Provider.openai :=
  (gateway_fallback_permanence "claude-v2" (by decide)).1

/-! ### Aggregator helper lemmas -/

lemma addScore_map_fst (st : Resp) (k : String) (v : ℚ) :
    (addScore st k v).map Prod.fst = st.map Prod.fst := by
  induction st with
  | nil => rfl
  | cons p rest ih =>
    simp only [addScore, List.map_cons] at ih ⊢
    refine congrArg₂ _ ?_ ih
    split <;> rfl

lemma any_beq_eq_decide_mem (l : List String) (k : String) :
    l.any (fun x => x == k) = decide (k ∈ l) := by
  induction l with
  | nil => rfl
  | cons a rest ih =>
    by_cases h : a = k
    · simp [h]
    · simp [List.any_cons, ih, h, Ne.symm h]

lemma hasKey_eq_any_fst (st : Resp) (k : String) :
    hasKey st k = (st.map Prod.fst).any (fun x => x == k) := by
  induction st with
  | nil => rfl
  | cons p rest ih =>
    simp only [hasKey, List.any_cons, List.map_cons] at ih ⊢
    rw [ih]

lemma hasKey_congr {st st2 : Resp} (h : st2.map Prod.fst = st.map Prod.fst)
    (k : String) : hasKey st2 k = hasKey st k := by
  rw [hasKey_eq_any_fst, hasKey_eq_any_fst, h]

lemma hasKey_addScore (st : Resp) (k : String) (v : ℚ) (x : String) :
    hasKey (addScore st k v) x = hasKey st x :=
  hasKey_congr (addScore_map_fst st k v) x

lemma findVal_addScore (st : Resp) (k : String) (v : ℚ) (m : String) :
    findVal (addScore st k v) m =
      (findVal st m).map (fun x => if m = k then x + v else x) := by
  induction st with
  | nil => rfl
  | cons p rest ih =>
    have hfst : (if p.1 = k then (p.1, p.2 + v) else p).1 = p.1 := by
      split <;> rfl
    by_cases hpm : p.1 = m
    · have h1 : findVal (addScore (p :: rest) k v) m =
          some (if p.1 = k then p.2 + v else p.2) := by
        simp only [addScore, List.map_cons, findVal]
        rw [List.find?_cons_of_pos _ (by rw [hfst]; simp [hpm])]
        rw [Option.map_some']
        split <;> rfl
      have h2 : findVal (p :: rest) m = some p.2 := by
        simp only [findVal]
        rw [List.find?_cons_of_pos _ (by simp [hpm])]
        rfl
      rw [h1, h2]
      rw [Option.map_some', Option.some_inj]
      subst hpm
      by_cases hk : p.1 = k <;> simp [hk]
    · have h1 : findVal (addScore (p :: rest) k v) m = findVal (addScore rest k v) m := by
        simp only [addScore, List.map_cons, findVal]
        rw [List.find?_cons_of_neg _ (by rw [hfst]; simp [hpm])]
      have h2 : findVal (p :: rest) m = findVal rest m := by
        simp only [findVal]
        rw [List.find?_cons_of_neg _ (by simp [hpm])]
      rw [h1, h2, ih]

lemma applyResp_cons (st : Resp) (kv : String × ℚ) (r : Resp) :
    applyResp st (kv :: r) =
      applyResp (if hasKey st kv.1 then addScore st kv.1 kv.2 else st) r := by
  simp only [applyResp, List.foldl_cons]

lemma applyResp_map_fst (r : Resp) : ∀ st : Resp,
    (applyResp st r).map Prod.fst = st.map Prod.fst := by
  induction r with
  | nil => intro st; rfl
  | cons kv rest ih =>
    intro st
    rw [applyResp_cons]
    by_cases h : hasKey st kv.1 = true
    · rw [if_pos h, ih, addScore_map_fst]
    · rw [if_neg h, ih]

lemma sumAt_cons (kv : String × ℚ) (r : Resp) (m : String) :
    sumAt (kv :: r) m = if kv.1 == m then kv.2 + sumAt r m else sumAt r m := by
  simp only [sumAt, List.filter_cons]
  split <;> simp

lemma findVal_applyResp (r : Resp) : ∀ st : Resp, hasKey st m = true →
    findVal (applyResp st r) m = (findVal st m).map (fun x => x + sumAt r m) := by
  induction r with
  | nil =>
    intro st _
    simp [applyResp, sumAt]
  | cons kv rest ih =>
    intro st hm
    rw [applyResp_cons, sumAt_cons]
    by_cases h1 : hasKey st kv.1 = true
    · rw [if_pos h1]
      have hm2 : hasKey (addScore st kv.1 kv.2) m = true := by
        rw [hasKey_addScore]; exact hm
      rw [ih _ hm2, findVal_addScore, Option.map_map]
      refine congrArg₂ _ ?_ rfl
      funext x
      simp only [Function.comp_apply]
      by_cases hmk : m = kv.1
      · have : kv.1 == m := by simp [hmk]
        rw [if_pos hmk, if_pos this]
        ring
      · have : ¬(kv.1 == m) = true := by simp [Ne.symm hmk]
        rw [if_neg hmk, if_neg this]
    · rw [if_neg h1]
      have hne : ¬(kv.1 == m) = true := by
        intro hc
        have : kv.1 = m := by simpa using hc
        exact h1 (this ▸ hm)
      rw [if_neg hne]
      exact ih st hm

lemma applyAll_cons (st : Resp) (r : Resp) (rs : List Resp) :
    applyAll st (r :: rs) = applyAll (applyResp st r) rs := rfl

lemma applyAll_map_fst (rs : List Resp) : ∀ st : Resp,
    (applyAll st rs).map Prod.fst = st.map Prod.fst := by
  induction rs with
  | nil => intro st; rfl
  | cons r rest ih =>
    intro st
    rw [applyAll_cons, ih, applyResp_map_fst]

lemma findVal_applyAll (rs : List Resp) : ∀ st : Resp, hasKey st m = true →
    findVal (applyAll st rs) m =
      (findVal st m).map (fun x => x + (rs.map (fun r => sumAt r m)).sum) := by
  induction rs with
  | nil =>
    intro st _
    simp [applyAll]
  | cons r rest ih =>
    intro st hm
    have hm2 : hasKey (applyResp st r) m = true := by
      rw [hasKey_congr (applyResp_map_fst r st)]; exact hm
    rw [applyAll_cons, ih _ hm2, findVal_applyResp r st hm, Option.map_map]
    refine congrArg₂ _ ?_ rfl
    funext x
    simp only [Function.comp_apply, List.map_cons, List.sum_cons]
    ring

lemma scoresFold_go (rs : List (Option Resp)) : ∀ (st : Resp) (c : Nat),
    rs.foldl
      (fun acc ro =>
        match ro with
        | none => acc
        | some r => (applyResp acc.1 r, acc.2 + 1))
      (st, c) =
      (applyAll st (rs.filterMap id), c + (rs.filterMap id).length) := by
  induction rs with
  | nil => intro st c; simp [applyAll]
  | cons ro rest ih =>
    intro st c
    match ro with
    | none => simpa using ih st c
    | some r =>
      simp only [List.foldl_cons, List.filterMap_cons, id]
      rw [ih (applyResp st r) (c + 1), applyAll_cons]
      refine congrArg _ ?_
      simp only [List.length_cons]
      omega

lemma scoresFold_eq (init : Resp) (rs : List (Option Resp)) :
    scoresFold init rs =
      (applyAll init (rs.filterMap id), (rs.filterMap id).length) := by
  rw [scoresFold, scoresFold_go]
  simp

lemma findVal_map_vals (f : ℚ → ℚ) (st : Resp) (m : String) :
    findVal (st.map (fun p => (p.1, f p.2))) m = (findVal st m).map f := by
  induction st with
  | nil => rfl
  | cons p rest ih =>
    by_cases hpm : p.1 = m
    · simp only [findVal, List.map_cons]
      rw [List.find?_cons_of_pos _ (by simp [hpm]),
        List.find?_cons_of_pos _ (by simp [hpm])]
      rfl
    · simp only [findVal, List.map_cons]
      rw [List.find?_cons_of_neg _ (by simp [hpm]),
        List.find?_cons_of_neg _ (by simp [hpm])]
      exact ih

lemma findVal_const_map (l : List String) (c : ℚ) (m : String) :
    findVal (l.map (fun x => (x, c))) m = if m ∈ l then some c else none := by
  induction l with
  | nil => rfl
  | cons a rest ih =>
    by_cases ham : a = m
    · simp only [findVal, List.map_cons]
      rw [List.find?_cons_of_pos _ (by simp [ham])]
      simp [ham]
    · simp only [findVal, List.map_cons]
      rw [List.find?_cons_of_neg _ (by simp [ham])]
      rw [findVal] at ih
      rw [ih]
      simp [Ne.symm ham]

lemma findVal_initScores (metrics : List String) (m : String) :
    findVal (initScores metrics) m = if m ∈ metrics then some 0 else none := by
  rw [initScores, findVal_const_map]
  simp

lemma initScores_map_fst (metrics : List String) :
    (initScores metrics).map Prod.fst = metrics.dedup := by
  rw [initScores, List.map_map]
  exact List.map_id _

lemma hasKey_initScores (metrics : List String) (k : String) :
    hasKey (initScores metrics) k = decide (k ∈ metrics) := by
  rw [hasKey_eq_any_fst, initScores_map_fst, any_beq_eq_decide_mem,
    decide_eq_decide]
  exact List.mem_dedup

/-- Closed form of the aggregator at a requested metric: the mean of the
per-response sums at `m` over the valid responses, or the default 5 when no
response was valid. -/
lemma judge_score_formula (metrics : List String) (rs : List (Option Resp))
    (m : String) (hm : m ∈ metrics) :
    findVal (generate_llmjudge_scores metrics rs) m =
      if 1 ≤ (rs.filterMap id).length
      then some ((((rs.filterMap id).map (fun r => sumAt r m)).sum) /
        (((rs.filterMap id).length : ℚ)))
      else some 5 := by
  have hk : hasKey (initScores metrics) m = true := by
    rw [hasKey_initScores]; simpa using hm
  have h0 : findVal (initScores metrics) m = some 0 := by
    rw [findVal_initScores, if_pos hm]
  rw [generate_llmjudge_scores]
  simp only [scoresFold_eq]
  by_cases hc : 1 ≤ (rs.filterMap id).length
  · rw [if_pos hc, if_pos hc,
      findVal_map_vals (fun x => x / (((rs.filterMap id).length : ℚ))),
      findVal_applyAll _ _ hk, h0]
    simp
  · rw [if_neg hc, if_neg hc, findVal_map_vals (fun _ => (5 : ℚ)),
      findVal_applyAll _ _ hk, h0]
    simp

lemma filterMap_id_map_some (l : List Resp) : (l.map some).filterMap id = l := by
  induction l with
  | nil => rfl
  | cons a t ih => simp [List.filterMap_cons, ih]

lemma map_sumAt_eq_scores (m : String) :
    ∀ (samples : List Resp) (scores : List ℚ),
      samples.length = scores.length →
      (∀ p ∈ samples.zip scores, p.1.filter (fun kv => kv.1 == m) = [(m, p.2)]) →
      samples.map (fun r => sumAt r m) = scores := by
  intro samples
  induction samples with
  | nil =>
    intro scores hlen _
    match scores with
    | [] => rfl
    | s :: ss => simp at hlen
  | cons r rest ih =>
    intro scores hlen hpt
    match scores with
    | [] => simp at hlen
    | s :: ss =>
      have h1 : r.filter (fun kv => kv.1 == m) = [(m, s)] :=
        hpt (r, s) (by simp [List.zip_cons_cons])
      have h2 : sumAt r m = s := by
        rw [sumAt, h1]; simp
      simp only [List.map_cons, h2]
      rw [ih ss (by simpa using hlen)
        (fun p hp => hpt p (by simp [List.zip_cons_cons, hp]))]

lemma sum_bounds (l : List ℚ) (h : ∀ x ∈ l, 1 ≤ x ∧ x ≤ 5) :
    (l.length : ℚ) ≤ l.sum ∧ l.sum ≤ 5 * l.length := by
  induction l with
  | nil => simp
  | cons a t ih =>
    have ha := h a (by simp)
    have ht := ih (fun x hx => h x (by simp [hx]))
    simp only [List.length_cons, List.sum_cons]
    push_cast
    constructor
    · linarith [ht.1, ha.1]
    · linarith [ht.2, ha.2]

lemma applyResp_filter_congr (st : Resp) (r : Resp) : ∀ st2 : Resp,
    st2.map Prod.fst = st.map Prod.fst →
    applyResp st2 (r.filter (fun kv => hasKey st kv.1)) = applyResp st2 r := by
  induction r with
  | nil => intro st2 _; rfl
  | cons kv rest ih =>
    intro st2 hkeys
    have hk2 : hasKey st2 kv.1 = hasKey st kv.1 := hasKey_congr hkeys kv.1
    by_cases h : hasKey st kv.1 = true
    · simp only [List.filter_cons, h, if_true]
      rw [applyResp_cons, applyResp_cons, hk2, h]
      exact ih (addScore st2 kv.1 kv.2)
        ((addScore_map_fst st2 kv.1 kv.2).trans hkeys)
    · have hf : hasKey st kv.1 = false := by
        cases hb : hasKey st kv.1
        · rfl
        · exact absurd hb h
      simp only [List.filter_cons, hf, Bool.false_eq_true, if_false]
      rw [applyResp_cons, hk2, hf]
      exact ih st2 hkeys

lemma applyAll_append (st : Resp) (l1 l2 : List Resp) :
    applyAll st (l1 ++ l2) = applyAll (applyAll st l1) l2 := by
  simp [applyAll, List.foldl_append]

/-- Claim C3 — Aggregator optimistic default: when every gateway response of an
aggregation pass is unparseable (`none`), the returned profile maps every
requested metric to exactly 5 — no division error, no undefined metric. -/
theorem aggregate_optimistic_default (metrics : List String)
    (rs : List (Option Resp)) (h : ∀ ro ∈ rs, ro = none)
    (m : String) (hm : m ∈ metrics) :
    findVal (generate_llmjudge_scores metrics rs) m = some 5 := by
  have hnil : rs.filterMap id = [] := by
    rw [List.filterMap_eq_nil_iff]
    intro a ha
    simpa using h a ha
  rw [judge_score_formula metrics rs m hm, hnil]
  simp

/-- Witness for C3: one unparseable response, one requested metric. -/
theorem aggregate_optimistic_default_witness :
    findVal (generate_llmjudge_scores ["Accuracy"] [none]) "Accuracy" = some 5 :=
  aggregate_optimistic_default ["Accuracy"] [none] (by simp) "Accuracy" (by simp)

/-- Claim C4 — Aggregator averaging: when every item's response parses and
response `i` assigns score `s_i` to the requested metric `M`, the aggregate for
`M` is the arithmetic mean `(∑ s_i) / N` — not the raw sum, and depending on
items only through their judge scores (no length weighting). -/
theorem aggregate_arithmetic_mean (metrics : List String) (m : String)
    (samples : List Resp) (scores : List ℚ)
    (hm : m ∈ metrics) (hne : samples ≠ [])
    (hlen : samples.length = scores.length)
    (hpt : ∀ p ∈ samples.zip scores,
      p.1.filter (fun kv => kv.1 == m) = [(m, p.2)]) :
    findVal (generate_llmjudge_scores metrics (samples.map some)) m =
      some (scores.sum / (samples.length : ℚ)) := by
  rw [judge_score_formula metrics _ m hm, filterMap_id_map_some]
  have hpos : 1 ≤ samples.length := by
    cases samples with
    | nil => exact absurd rfl hne
    | cons a l => simp
  rw [if_pos hpos, map_sumAt_eq_scores m samples scores hlen hpt]

/-- Witness for C4: two items scoring metric `"A"` with 2 and 4 average to 3. -/
theorem aggregate_arithmetic_mean_witness :
    findVal
        (generate_llmjudge_scores ["A"]
          (([[("A", (2 : ℚ))], [("A", (4 : ℚ))]] : List Resp).map some)) "A" =
      some ((([2, 4] : List ℚ).sum) /
        ((([[("A", (2 : ℚ))], [("A", (4 : ℚ))]] : List Resp).length : ℚ))) :=
  aggregate_arithmetic_mean ["A"] "A" [[("A", 2)], [("A", 4)]] [2, 4]
    (by simp) (by simp) (by simp) (by simp [List.filter_cons])

/-- Claim C8, counterexample — the claim "every value of the returned
ScoreProfile lies in [1,5]" fails on the code: with requested metrics
`["A","B"]` and a single valid response scoring only `"A"`, metric `"B"`
aggregates to `0/1 = 0`, which is below 1. -/
theorem scoreprofile_range_cex :
    findVal (generate_llmjudge_scores ["A", "B"] [some [("A", (3 : ℚ))]]) "B" =
      some 0 ∧ ¬((1 : ℚ) ≤ 0) := by
  constructor
  · have h := judge_score_formula ["A", "B"] [some [("A", (3 : ℚ))]] "B" (by simp)
    have hv : List.filterMap id [some [("A", (3 : ℚ))]] = [[("A", (3 : ℚ))]] := rfl
    rw [h, hv]
    simp [sumAt, List.filter_cons]
  · norm_num

/-- Claim C8, amended — if every valid parsed response assigns every requested
metric exactly one score in [1,5], then every aggregate lies in [1,5] (with
zero valid responses the default 5 also lies in [1,5]).  Without that proviso
the code can leave [1,5]: a metric absent from the valid responses aggregates
to 0, and out-of-range judge scores propagate unclamped. -/
theorem scoreprofile_range_amended (metrics : List String)
    (rs : List (Option Resp)) (m : String) (hm : m ∈ metrics)
    (hvalid : ∀ r ∈ rs.filterMap id, ∃ v : ℚ,
      r.filter (fun kv => kv.1 == m) = [(m, v)] ∧ 1 ≤ v ∧ v ≤ 5) :
    ∀ q, findVal (generate_llmjudge_scores metrics rs) m = some q →
      1 ≤ q ∧ q ≤ 5 := by
  intro q hq
  rw [judge_score_formula metrics rs m hm] at hq
  by_cases hc : 1 ≤ (rs.filterMap id).length
  · rw [if_pos hc, Option.some_inj] at hq
    have hb : ∀ x ∈ (rs.filterMap id).map (fun r => sumAt r m),
        1 ≤ x ∧ x ≤ 5 := by
      intro x hx
      rcases List.mem_map.mp hx with ⟨r, hr, rfl⟩
      rcases hvalid r hr with ⟨v, hfil, hv1, hv5⟩
      have hs : sumAt r m = v := by
        rw [sumAt, hfil]; simp
      rw [hs]
      exact ⟨hv1, hv5⟩
    have hsum := sum_bounds _ hb
    rw [List.length_map] at hsum
    have hpos : (0 : ℚ) < ((rs.filterMap id).length : ℚ) := by
      exact_mod_cast Nat.lt_of_lt_of_le Nat.zero_lt_one hc
    rw [← hq]
    constructor
    · rw [le_div_iff₀ hpos, one_mul]
      exact hsum.1
    · rw [div_le_iff₀ hpos]
      linarith [hsum.2]
  · rw [if_neg hc, Option.some_inj] at hq
    rw [← hq]
    norm_num

/-- Witness for amended C8: a single valid response scoring the only requested
metric with 3 yields an aggregate inside [1,5]. -/
theorem scoreprofile_range_amended_witness : (1 : ℚ) ≤ 3 ∧ (3 : ℚ) ≤ 5 :=
  scoreprofile_range_amended ["A"] [some [("A", (3 : ℚ))]] "A" (by simp)
    (by
      intro r hr
      simp only [List.filterMap_cons, id, List.filterMap_nil,
        List.mem_singleton] at hr
      subst hr
      exact ⟨3, by simp [List.filter_cons], by norm_num, by norm_num⟩)
    3
    (by
      have h := judge_score_formula ["A"] [some [("A", (3 : ℚ))]] "A" (by simp)
      have hv : List.filterMap id [some [("A", (3 : ℚ))]] = [[("A", (3 : ℚ))]] := rfl
      rw [h, hv]
      simp [sumAt, List.filter_cons])

/-- Claim C10 — Unknown-metric filtering: a parsed judge response is
interchangeable with the same response restricted to the requested metric set;
unknown keys contribute to no running total and change no aggregate (and the
embedding is total, so nothing is raised). -/
theorem unknown_metric_filtering (metrics : List String)
    (rs1 rs2 : List (Option Resp)) (r : Resp) :
    generate_llmjudge_scores metrics (rs1 ++ some r :: rs2) =
      generate_llmjudge_scores metrics
        (rs1 ++ some (r.filter (fun kv => decide (kv.1 ∈ metrics))) :: rs2) := by
  have hfil : r.filter (fun kv => decide (kv.1 ∈ metrics)) =
      r.filter (fun kv => hasKey (initScores metrics) kv.1) := by
    apply List.filter_congr
    intro kv _
    rw [hasKey_initScores]
  have hkeys : (applyAll (initScores metrics) (rs1.filterMap id)).map Prod.fst =
      (initScores metrics).map Prod.fst := applyAll_map_fst _ _
  have hv1 : (rs1 ++ some r :: rs2).filterMap id =
      rs1.filterMap id ++ r :: rs2.filterMap id := by
    simp [List.filterMap_append, List.filterMap_cons]
  have hv2 : (rs1 ++ some (r.filter (fun kv => decide (kv.1 ∈ metrics))) :: rs2).filterMap id =
      rs1.filterMap id ++
        (r.filter (fun kv => decide (kv.1 ∈ metrics))) :: rs2.filterMap id := by
    simp [List.filterMap_append, List.filterMap_cons]
  have hstate :
      applyAll (initScores metrics)
          (rs1.filterMap id ++ r :: rs2.filterMap id) =
        applyAll (initScores metrics)
          (rs1.filterMap id ++
            (r.filter (fun kv => decide (kv.1 ∈ metrics))) :: rs2.filterMap id) := by
    rw [applyAll_append, applyAll_append, applyAll_cons, applyAll_cons, hfil,
      applyResp_filter_congr (initScores metrics) r _ hkeys]
  rw [generate_llmjudge_scores, generate_llmjudge_scores, scoresFold_eq,
    scoresFold_eq, hv1, hv2, hstate]
  simp

/-! ### Discovery helper lemmas -/

lemma mem_poolRemove {α : Type} [DecidableEq α] {pool sel : List α} {x : α} :
    x ∈ poolRemove pool sel ↔ x ∈ pool ∧ x ∉ sel := by
  simp [poolRemove]

lemma poolRemove_subset {α : Type} [DecidableEq α] (pool sel : List α) :
    poolRemove pool sel ⊆ pool :=
  fun _ hx => (mem_poolRemove.mp hx).1

lemma subperm_nodup {α : Type} {l1 l2 : List α} (h : List.Subperm l1 l2)
    (h2 : l2.Nodup) : l1.Nodup := by
  rcases h with ⟨l, hperm, hsub⟩
  exact hperm.nodup_iff.mp (hsub.nodup h2)

lemma poolRemove_length {α : Type} [DecidableEq α] {pool sel : List α}
    (hnd : pool.Nodup) (hsub : List.Subperm sel pool) :
    (poolRemove pool sel).length + sel.length = pool.length := by
  have hsnd : sel.Nodup := subperm_nodup hsub hnd
  have hfil : (pool.filter (fun e => decide (e ∈ sel))).Perm sel := by
    apply List.Subperm.antisymm
    · apply List.Nodup.subperm (hnd.filter _)
      intro x hx
      exact of_decide_eq_true (List.mem_filter.mp hx).2
    · apply List.Nodup.subperm hsnd
      intro x hx
      rw [List.mem_filter]
      exact ⟨hsub.subset hx, decide_eq_true hx⟩
  have h1 : pool.length = (pool.filter (fun e => decide (e ∈ sel))).length +
      (poolRemove pool sel).length := by
    have h := List.length_eq_length_filter_add (l := pool)
      (fun e => decide (e ∈ sel))
    simpa [poolRemove, decide_not] using h
  have h2 : (pool.filter (fun e => decide (e ∈ sel))).length = sel.length :=
    hfil.length_eq
  omega

lemma validRun_subset {α : Type} [DecidableEq α] (sels : List (List α)) :
    ∀ pool : List α, ValidRun pool sels → ∀ s ∈ sels, s ⊆ pool := by
  induction sels with
  | nil =>
    intro pool _ s hs
    simp at hs
  | cons sel rest ih =>
    intro pool hrun s hs
    obtain ⟨hsub, hrest⟩ := hrun
    rcases List.mem_cons.mp hs with h | h
    · subst h
      exact hsub.subset
    · exact (ih (poolRemove pool sel) hrest s h).trans (poolRemove_subset pool sel)

lemma discoverPool_spec {α : Type} [DecidableEq α] (sels : List (List α)) :
    ∀ pool : List α, pool.Nodup → ValidRun pool sels →
      (discoverPool pool sels).length + (sels.map List.length).sum = pool.length ∧
        List.Pairwise List.Disjoint sels := by
  induction sels with
  | nil =>
    intro pool _ _
    simp [discoverPool]
  | cons sel rest ih =>
    intro pool hnd hrun
    obtain ⟨hsub, hrest⟩ := hrun
    have hnd2 : (poolRemove pool sel).Nodup := hnd.filter _
    have hlen := poolRemove_length hnd hsub
    obtain ⟨ihlen, ihdisj⟩ := ih (poolRemove pool sel) hnd2 hrest
    constructor
    · simp only [discoverPool, List.map_cons, List.sum_cons]
      omega
    · refine List.Pairwise.cons ?_ ihdisj
      intro s hs a ha has
      have hsubs : s ⊆ poolRemove pool sel :=
        validRun_subset rest (poolRemove pool sel) hrest s hs
      exact (mem_poolRemove.mp (hsubs has)).2 ha

lemma sum_map_length_const {α : Type} (b : Nat) :
    ∀ sels : List (List α), (∀ s ∈ sels, s.length = b) →
      (sels.map List.length).sum = sels.length * b := by
  intro sels
  induction sels with
  | nil =>
    intro _
    simp
  | cons s rest ih =>
    intro hb
    simp only [List.map_cons, List.sum_cons, List.length_cons]
    rw [hb s (by simp), ih (fun x hx => hb x (by simp [hx]))]
    ring

/-- Claim C5, counterexample — the claim fails when the validation set contains
duplicate items: removal from the pool is by *value*, so sampling one of two
equal items removes both.  Pool `[0,0]` with one round of batch size 1 (a
legitimate sample: `[0]` is a sub-multiset of the pool, and
`iterations × batchSize = 1 ≤ 2`) removes 2 items, not `1 × 1`. -/
theorem discovery_pool_exhaustion_cex :
    ValidRun ([0, 0] : List Nat) [[0]] ∧ ([0] : List Nat).length = 1 ∧
      1 * 1 ≤ ([0, 0] : List Nat).length ∧
      ([0, 0] : List Nat).length - (discoverPool [0, 0] [[0]]).length = 2 ∧
      2 ≠ 1 * 1 := by
  refine ⟨⟨⟨[0], List.Perm.refl _, List.Sublist.cons 0 (List.Sublist.refl [0])⟩,
    trivial⟩, rfl, by norm_num, by decide, by norm_num⟩

/-- Claim C5, amended — for a validation set of pairwise-distinct items, a
discovery run of `iterations` rounds with batches of size `batchSize` drawn
without replacement removes exactly `iterations × batchSize` items from the
working pool, and the rounds' batches are pairwise disjoint (no item is
sampled in two different rounds).  With duplicate items the by-value removal
of line 74 can remove more than `iterations × batchSize` items. -/
theorem discovery_pool_exhaustion {α : Type} [DecidableEq α] (pool : List α)
    (sels : List (List α)) (batch_size : Nat) (hnd : pool.Nodup)
    (hrun : ValidRun pool sels) (hb : ∀ s ∈ sels, s.length = batch_size) :
    pool.length - (discoverPool pool sels).length = sels.length * batch_size ∧
      List.Pairwise List.Disjoint sels := by
  obtain ⟨hlen, hdisj⟩ := discoverPool_spec sels pool hnd hrun
  have hsum := sum_map_length_const batch_size sels hb
  refine ⟨?_, hdisj⟩
  omega

/-- Witness for amended C5: pool `[0,1]`, one round sampling `[0]`. -/
theorem discovery_pool_exhaustion_witness :
    ([0, 1] : List Nat).length - (discoverPool [0, 1] [[0]]).length = 1 * 1 ∧
      List.Pairwise List.Disjoint ([[0]] : List (List Nat)) :=
  discovery_pool_exhaustion [0, 1] [[0]] 1 (by decide)
    ⟨List.Nodup.subperm (by decide) (by decide), trivial⟩
    (by
      intro s hs
      simp only [List.mem_singleton] at hs
      subst hs
      rfl)

lemma mem_collect_metrics_go (resps : List (Option (List JVal))) :
    ∀ (acc : Finset JVal) (x : JVal),
      (x ∈ resps.foldl
        (fun acc ro =>
          match ro with
          | none => acc
          | some ms => acc ∪ ms.toFinset)
        acc) ↔
        x ∈ acc ∨ ∃ l ∈ resps.filterMap id, x ∈ l := by
  induction resps with
  | nil =>
    intro acc x
    simp
  | cons ro rest ih =>
    intro acc x
    match ro with
    | none =>
      simp only [List.foldl_cons]
      rw [ih]
      simp
    | some ms =>
      simp only [List.foldl_cons]
      rw [ih]
      simp only [Finset.mem_union, List.mem_toFinset, List.filterMap_cons, id,
        List.exists_mem_cons_iff, or_assoc]

lemma mem_collect_metrics {resps : List (Option (List JVal))} {x : JVal} :
    x ∈ collect_metrics resps ↔ ∃ l ∈ resps.filterMap id, x ∈ l := by
  rw [collect_metrics, mem_collect_metrics_go]
  simp

/-- Claim C6, counterexample — the claim fails on the code: `json.loads`
output is unioned into the set with no shape check, and `list.sort()` at
line 106 runs outside the `try`.  A single gateway response whose fenced
payload decodes to `[1, "a"]` puts a number and a string in the set, and the
sort then raises `TypeError` (which propagates out of `generate_metrics`, here
`none`) instead of returning a sorted list. -/
theorem discovery_output_shape_cex :
    generate_metrics [some [JVal.num 1, JVal.str "a"]] = none := by
  decide

/-- Claim C6, amended — provided every decoded round payload is a list of
strings (metric names), `generate_metrics` returns a list that is
lexicographically sorted and duplicate-free, whatever the random sampling
order and however many rounds failed to parse (`none` rounds).  Without that
proviso the final sort can raise `TypeError` on a payload mixing strings with
non-strings, and no list is returned at all. -/
theorem discovery_output_shape (resps : List (Option (List JVal)))
    (h : ∀ l ∈ resps.filterMap id, ∀ v ∈ l, v.isStr = true) :
    ∃ ms : List String, generate_metrics resps = some (ms.map JVal.str) ∧
      ms.Sorted (· ≤ ·) ∧ ms.Nodup := by
  have hall : ∀ v ∈ collect_metrics resps, v.isStr = true := by
    intro v hv
    rcases mem_collect_metrics.mp hv with ⟨l, hl, hvl⟩
    exact h l hl v hvl
  refine ⟨((collect_metrics resps).image JVal.getStr).sort (· ≤ ·), ?_,
    Finset.sort_sorted _ _, Finset.sort_nodup _ _⟩
  simp only [generate_metrics]
  rw [if_pos hall]

/-- Witness for amended C6: one parsed round proposing `["b", "a"]`. -/
theorem discovery_output_shape_witness :
    ∃ ms : List String,
      generate_metrics [some [JVal.str "b", JVal.str "a"]] =
          some (ms.map JVal.str) ∧
        ms.Sorted (· ≤ ·) ∧ ms.Nodup :=
  discovery_output_shape [some [JVal.str "b", JVal.str "a"]] (by decide)

/-- Claim C7 — Constraint statistics: on sentence counts `[2,4,6]` and word
counts `[10,20,30]` the statistics record is exactly
`(min 2, max 6, avg 4, min 10, max 30, avg 20)` with the averages exact
rationals, and the range-form formatter renders exactly the sentence the spec
quotes (truncation to integer happens only here, at formatting time). -/
theorem constraint_statistics :
    generate_output_constraints [2, 4, 6] [10, 20, 30] =
      some ⟨2, 6, 4, 10, 30, 20⟩ ∧
      format_ocg_constraints ⟨2, 6, 4, 10, 30, 20⟩ =
        "The summary must have from 2 to 6 sentences and from 10 to 30 words with an average of 20 words and 4 sentences." := by
  constructor
  · norm_num [generate_output_constraints, OCGStats.mk.injEq, Nat.min_def,
      Nat.max_def]
  · rfl

/-- Claim C9, counterexample — the claim that all core operations consume the
validation set read-only fails for the aggregator: `random.shuffle` (line 147)
permutes the caller's list in place, so after the call the caller's list can
be in a different order (`[1,0]` is a legal shuffle outcome of `[0,1]`). -/
theorem validation_readonly_cex :
    ([1, 0] : List Nat).Perm [0, 1] ∧
      (generate_llmjudge_scores_run [] ([0, 1] : List Nat) [1, 0] []).2 ≠ [0, 1] :=
  ⟨List.Perm.swap 0 1 [], by decide⟩

/-- Claim C9, amended — metric discovery operates on a copy (line 69) and
constraint statistics only reads, so both leave the caller's list unchanged;
judge-score aggregation shuffles the caller's list in place, leaving a
permutation of it: same items and contents, but not necessarily the same
order. -/
theorem validation_readonly_amended {α ι : Type} (validation_data : List ι)
    (shuffled : List ι) (metrics : List String)
    (judge_resps : List (Option Resp)) (data2 : List α)
    (resps : List (Option (List JVal))) (cs cw : ι → Nat)
    (hperm : shuffled.Perm validation_data) :
    (generate_metrics_run data2 resps).2 = data2 ∧
      (generate_output_constraints_run validation_data cs cw).2 =
        validation_data ∧
      ((generate_llmjudge_scores_run metrics validation_data shuffled
          judge_resps).2).Perm validation_data :=
  ⟨rfl, rfl, hperm⟩

/-- Witness for amended C9 at concrete lists, with the shuffle outcome `[1,0]`
of the caller's `[0,1]`. -/
theorem validation_readonly_amended_witness :
    (generate_metrics_run ([5] : List Nat) []).2 = [5] ∧
      (generate_output_constraints_run ([0, 1] : List Nat) id id).2 = [0, 1] ∧
      ((generate_llmjudge_scores_run [] ([0, 1] : List Nat) [1, 0] []).2).Perm
        [0, 1] :=
  validation_readonly_amended [0, 1] [1, 0] [] [] [5] [] id id
    (List.Perm.swap 0 1 [])

end LongGuide
